import Mathlib

/-!
# Shallow embedding of `.github/sync_labels.py`

This file embeds the label-synchronization bot of the repository
(`GhLabelSynchronizer` and its helpers) as executable Lean definitions and
proves properties of the embedded code.

Modelling conventions:
* GitHub timestamps (`submittedAt`, `committedDate`) are `Nat` values; the
  Python code compares ISO-8601 strings of fixed shape, for which string
  comparison agrees with chronological comparison.
* The per-invocation cached view of one issue / PR (url, labels, author,
  draft flag, reviews, commits) is the structure `IssueView`.
* Python code that can raise an exception (`ValueError` from `max([])`,
  `TypeError` from using `None`, `NameError` from an undefined identifier)
  is modelled in the `Except String` monad; the error string names the
  Python exception.
* Methods that only perform `gh` side effects are modelled as functions
  returning the list of emitted operations (`GhOp`); the effect of a list
  of operations on the external label set is `apply_op`.
-/

namespace SyncLabels

/-- Python `s.startswith(p)`. -/
def py_startswith (s p : String) : Bool :=
  p.data.isPrefixOf s.data

/-- A review, as the code reads it from `gh pr view --json reviews`:
`rev['author']['login']`, `rev['authorAssociation']`, `rev['state']`,
`rev['submittedAt']`, `rev['body']`. -/
structure Review where
  login : String
  authorAssociation : String
  state : String
  submittedAt : Nat
  body : String
deriving DecidableEq

/-- A commit, as the code reads it from `gh pr view --json commits`:
the `authors` login list and `committedDate`. -/
structure Commit where
  authors : List String
  committedDate : Nat
deriving DecidableEq

/-- The cached per-invocation view of one issue / PR
(`self._pr`, `self._labels`, `self._author`, `self._draft`,
`self._reviews`, `self._commits`). -/
structure IssueView where
  isPR : Bool
  labels : List String
  author : String
  draft : Bool
  reviews : List Review
  commits : List Commit
deriving DecidableEq

/-- An issue comment, as returned by the REST `issues/comments` endpoint:
`c['id']`, `c['user']['login']`, `c['body']`, `c['created_at']`.
The creation time is in minutes, as an integer. -/
structure Comment where
  id : Nat
  login : String
  body : String
  createdAt : Int
deriving DecidableEq

/-- Enum `AuthorAssociation` of the script. -/
inductive AuthorAssociation where
  | collaborator
  | contributor
  | first_timer
  | first_time_contributor
  | mannequin
  | member
  | none
  | owner
deriving DecidableEq

/-- `AuthorAssociation(value)`: parse the GitHub string; `Option.none`
models the `ValueError` raised on an unknown value. -/
def AuthorAssociation.of_string : String → Option AuthorAssociation
  | "COLLABORATOR" => some .collaborator
  | "CONTRIBUTOR" => some .contributor
  | "FIRST_TIMER" => some .first_timer
  | "FIRST_TIME_CONTRIBUTOR" => some .first_time_contributor
  | "MANNEQUIN" => some .mannequin
  | "MEMBER" => some .member
  | "NONE" => some .none
  | "OWNER" => some .owner
  | _ => Option.none

/-- `AuthorAssociation.is_valid`: membership in
`[collaborator, member, owner]`. -/
def AuthorAssociation.is_valid (a : AuthorAssociation) : Bool :=
  a = .collaborator ∨ a = .member ∨ a = .owner

/-- Enum `State` of the script (state labels). -/
inductive State where
  | positive_review
  | needs_work
  | needs_review
  | needs_info
deriving DecidableEq

/-- `State.value`. -/
def State.value : State → String
  | .positive_review => "s: positive review"
  | .needs_work => "s: needs work"
  | .needs_review => "s: needs review"
  | .needs_info => "s: needs info"

/-- The three selection lists `Priority`, `State`, `Resolution`. -/
inductive LabelCat where
  | priority
  | state
  | resolution
deriving DecidableEq

/-- The label strings of each selection list, in enum order. -/
def sel_values : LabelCat → List String
  | .priority =>
      ["p: blocker /1", "p: critical /2", "p: major /3", "p: minor /4",
       "p: trivial /5"]
  | .state =>
      ["s: positive review", "s: needs work", "s: needs review",
       "s: needs info"]
  | .resolution =>
      ["r: duplicate", "r: invalid", "r: wontfix", "r: worksforme"]

/-- `selection_list(label)`: the first of the three lists (scanned in the
order `Priority`, `State`, `Resolution`) containing `label`. -/
def selection_list (label : String) : Option LabelCat :=
  if label ∈ sel_values .priority then some .priority
  else if label ∈ sel_values .state then some .state
  else if label ∈ sel_values .resolution then some .resolution
  else Option.none

/-- `is_this_bot(login)`: `login.startswith(self.bot_login())`. -/
def is_this_bot (bot login : String) : Bool :=
  py_startswith login bot

/-- The maximum `committedDate` computed in `get_commits`
(`max(com['committedDate'] for com in self._commits)`); `Option.none`
models the `ValueError` raised by `max` on an empty commit list. -/
def max_commit_date : List Commit → Option Nat
  | [] => Option.none
  | c :: cs => some (cs.foldl (fun a cm => max a cm.committedDate) c.committedDate)

/-- `get_commits()`: `None` for an issue; the commit list of a PR.
The error case is the `ValueError` of `max` on an empty list. -/
def get_commits (v : IssueView) : Except String (Option (List Commit)) :=
  if v.isPR = false then .ok Option.none
  else
    match max_commit_date v.commits with
    | Option.none => .error "ValueError: max() arg is an empty sequence"
    | some _ => .ok (some v.commits)

/-- `get_reviews(complete)`: `None` for an issue; the full review list if
`complete` or the cached list is empty; otherwise the reviews submitted
strictly after the most recent commit whose state is not `COMMENTED`. -/
def get_reviews (v : IssueView) (complete : Bool) : Except String (Option (List Review)) :=
  if v.isPR = false then .ok Option.none
  else if complete || v.reviews.isEmpty then .ok (some v.reviews)
  else
    match max_commit_date v.commits with
    | Option.none => .error "ValueError: max() arg is an empty sequence"
    | some date =>
        .ok (some (((v.reviews.filter (fun rev => date < rev.submittedAt)).filter
          (fun rev => rev.state ≠ "COMMENTED"))))

/-- The scan loop of `get_latest_review`: starting from `res = revs[0]`,
replace `res` whenever a strictly larger `submittedAt` is met. -/
def latest_from (first : Review) (rest : List Review) : Review :=
  rest.foldl (fun res rev => if res.submittedAt < rev.submittedAt then rev else res) first

/-- `get_latest_review(complete)`: `None` when `get_reviews` yields no
review (Python `if not revs`), otherwise the scan result. -/
def get_latest_review (v : IssueView) (complete : Bool) : Except String (Option Review) :=
  match get_reviews v complete with
  | .error e => .error e
  | .ok Option.none => .ok Option.none
  | .ok (some []) => .ok Option.none
  | .ok (some (r :: rs)) => .ok (some (latest_from r rs))

/-- `is_draft()`: the `isDraft` field for a PR, `False` otherwise. -/
def is_draft (v : IssueView) : Bool :=
  if v.isPR then v.draft else false

/-- `check_review_decision(rev_decision)`: whether the latest proper
review exists and has the given state. -/
def check_review_decision (v : IssueView) (rev_decision : String) : Except String Bool :=
  match get_latest_review v false with
  | .error e => .error e
  | .ok Option.none => .ok false
  | .ok (some rev) => .ok (rev.state = rev_decision)

/-- `needs_work_valid()`. -/
def needs_work_valid (v : IssueView) : Except String Bool :=
  check_review_decision v "CHANGES_REQUESTED"

/-- `positive_review_valid()`. -/
def positive_review_valid (v : IssueView) : Except String Bool :=
  check_review_decision v "APPROVED"

/-- `needs_review_valid()`: `False` for a draft, `False` when
`needs_work_valid()` or `positive_review_valid()` holds, else `True`. -/
def needs_review_valid (v : IssueView) : Except String Bool :=
  if is_draft v then .ok false
  else
    match needs_work_valid v with
    | .error e => .error e
    | .ok true => .ok false
    | .ok false =>
        match positive_review_valid v with
        | .error e => .error e
        | .ok true => .ok false
        | .ok false => .ok true

/-- The inner update of the commit-author collection loop of
`actor_valid`: append `login` when it is not yet collected, is not the
bot and differs from the PR author. -/
def upd_authors (bot author : String) (acc : List String) (login : String) : List String :=
  if login ∈ acc then acc
  else if is_this_bot bot login = false ∧ login ≠ author then acc ++ [login]
  else acc

/-- The commit-author collection loop of `actor_valid`. -/
def other_commit_authors (bot author : String) (coms : List Commit) : List String :=
  coms.foldl (fun acc com => com.authors.foldl (upd_authors bot author) acc) []

/-- `actor_valid()`: `True` when the actor is not the author; for the
author, `False` without a non-bot proper review or without a commit by a
non-bot, non-author login. -/
def actor_valid (bot actor : String) (v : IssueView) : Except String Bool :=
  if v.author ≠ actor then .ok true
  else
    match get_reviews v false with
    | .error e => .error e
    | .ok Option.none => .error "TypeError: NoneType is not iterable"
    | .ok (some revs) =>
        let revs := revs.filter (fun rev => is_this_bot bot rev.login = false)
        if revs.isEmpty then .ok false
        else
          match get_commits v with
          | .error e => .error e
          | .ok Option.none => .error "TypeError: NoneType is not iterable"
          | .ok (some coms) =>
              let authors := other_commit_authors bot v.author coms
              if authors.isEmpty then .ok false else .ok true

/-- `approve_allowed()`: `False` as soon as any proper review by someone
other than the actor has state `CHANGES_REQUESTED`; otherwise the result
of `actor_valid()`. -/
def approve_allowed (bot actor : String) (v : IssueView) : Except String Bool :=
  match get_reviews v false with
  | .error e => .error e
  | .ok Option.none => .error "TypeError: NoneType is not iterable"
  | .ok (some revs) =>
      let revs := revs.filter (fun rev => rev.login ≠ actor)
      if revs.any (fun rev => rev.state = "CHANGES_REQUESTED") then .ok false
      else actor_valid bot actor v

/-- One `gh` side effect emitted by the synchronizer. -/
inductive GhOp where
  | addComment (text : String)
  | editAdd (label : String)
  | editRemove (label : String)
  | markReady
  | approveOp
  | requestChangesOp
deriving DecidableEq

/-- Effect of one operation on the external label set: `gh edit` adds or
removes the label, the other commands leave labels unchanged. -/
def apply_op (labels : List String) : GhOp → List String
  | .editAdd l => if l ∈ labels then labels else labels ++ [l]
  | .editRemove l => labels.erase l
  | _ => labels

/-- `add_label(label)`: `gh edit --add-label` only when the cached label
list does not contain the label. -/
def add_label_ops (labels : List String) (label : String) : List GhOp :=
  if label ∈ labels then [] else [GhOp.editAdd label]

/-- `remove_label(label)`: `gh edit --remove-label` only when the cached
label list contains the label. -/
def remove_label_ops (labels : List String) (label : String) : List GhOp :=
  if label ∈ labels then [GhOp.editRemove label] else []

/-- `remove_all_labels_of_sel_list(sel_list)`: remove every value of the
list that the cached view shows as present. -/
def remove_all_ops (vals : List String) (labels : List String) : List GhOp :=
  (vals.filter (fun l => l ∈ labels)).map GhOp.editRemove

/-- The exclusivity loop at the end of `on_label_add`: remove every other
value of the selection list that the cached view shows as present. -/
def exclusivity_removes (cat : LabelCat) (label : String) (labels : List String) : List GhOp :=
  (((sel_values cat).filter (fun l => l ≠ label)).filter (fun l => l ∈ labels)).map
    GhOp.editRemove

/-- `active_partners(item)`: the other values of the selection list of
`item` present on the issue / PR. -/
def active_partners (cat : LabelCat) (label : String) (labels : List String) : List String :=
  ((sel_values cat).filter (fun l => l ≠ label)).filter (fun l => l ∈ labels)

/-- The prefix of every warning comment (`self._warning_prefix`). -/
def warningPre : String := "Label Sync Warning:"

/-- The prefix of every hint comment (`self._hint_prefix`). -/
def hintPre : String := "Label Sync Hint:"

/-- The warning text of `reject_label_addition`, by branch. -/
def reject_addition_text (isPR : Bool) (label : String) : String :=
  if isPR = false then
    warningPre ++ " Label " ++ label ++
      " can not be added to an issue. Please use it on the corresponding PR"
  else if label = State.needs_review.value then
    warningPre ++ " Label " ++ label ++
      " can not be added, since there are unresolved reviews"
  else
    warningPre ++ " Label " ++ label ++
      " can not be added. Please use the GitHub review functionality"

/-- `reject_label_addition(item)`: post a warning comment, then remove
the label (the removal is guarded by the cached label list). -/
def reject_label_addition (isPR : Bool) (label : String) (labels : List String) : List GhOp :=
  GhOp.addComment (reject_addition_text isPR label) :: remove_label_ops labels label

/-- `reject_label_removal(item)`: post a hint comment only. -/
def reject_label_removal (cat : LabelCat) : List GhOp :=
  [GhOp.addComment (hintPre ++
    " You do not need to remove " ++
    (if cat = LabelCat.state then "status" else "priority") ++
    " labels any more. Better just add the label which replaces it")]

/-- The per-item gate of the `State` branch of `on_label_add`.
`some pre` means the addition is accepted with the extra operations
`pre`; `Option.none` means the addition is rejected. -/
def state_gate (bot actor : String) (v : IssueView) (label : String) :
    Except String (Option (List GhOp)) :=
  if label = State.needs_review.value then
    match needs_review_valid v with
    | .error e => .error e
    | .ok true => .ok (some [])
    | .ok false =>
        if is_draft v then .ok (some [GhOp.markReady]) else .ok Option.none
  else if label = State.needs_work.value then
    match needs_work_valid v with
    | .error e => .error e
    | .ok true => .ok (some [])
    | .ok false =>
        if is_draft v = false then .ok (some [GhOp.requestChangesOp])
        else .ok Option.none
  else if label = State.positive_review.value then
    match positive_review_valid v with
    | .error e => .error e
    | .ok true => .ok (some [])
    | .ok false =>
        match approve_allowed bot actor v with
        | .error e => .error e
        | .ok true => .ok (some [GhOp.approveOp])
        | .ok false => .ok Option.none
  else .ok (some [])

/-- `on_label_add(label)`: the label-add protocol of the dispatcher. -/
def on_label_add (bot actor : String) (v : IssueView) (label : String) :
    Except String (List GhOp) :=
  match selection_list label with
  | Option.none => .ok []
  | some cat =>
      if label ∈ v.labels then
        match cat with
        | .state =>
            if v.isPR = false ∧ label ≠ State.needs_info.value then
              .ok (reject_label_addition v.isPR label v.labels)
            else
              match state_gate bot actor v label with
              | .error e => .error e
              | .ok Option.none => .ok (reject_label_addition v.isPR label v.labels)
              | .ok (some pre) => .ok (pre ++ exclusivity_removes .state label v.labels)
        | .priority => .ok (exclusivity_removes .priority label v.labels)
        | .resolution =>
            .ok (remove_all_ops (sel_values .priority) v.labels ++
              exclusivity_removes .resolution label v.labels)
      else
        match active_partners cat label v.labels with
        | [] => .ok []
        | p :: _ =>
            .ok [GhOp.addComment (warningPre ++ " Label " ++ label ++
              " can not be added due to " ++ p ++ "!")]

/-- `on_label_removal(label)`: the label-remove protocol of the
dispatcher. -/
def on_label_removal (v : IssueView) (label : String) : List GhOp :=
  match selection_list label with
  | Option.none => []
  | some cat =>
      if 0 < (active_partners cat label v.labels).length then []
      else
        match cat with
        | .state =>
            if v.isPR then
              if label ≠ State.needs_info.value then reject_label_removal .state
              else []
            else []
        | .priority => reject_label_removal .priority
        | .resolution => []

/-- The scan of `review_comment_to_state` over the `State` enum in
declaration order: the first state label whose value is a prefix of the
review body. -/
def state_prefix_of (body : String) : Option State :=
  if py_startswith body State.positive_review.value then some .positive_review
  else if py_startswith body State.needs_work.value then some .needs_work
  else if py_startswith body State.needs_review.value then some .needs_review
  else if py_startswith body State.needs_info.value then some .needs_info
  else Option.none

/-- `review_comment_to_state()`: the state label the latest (complete)
review body starts with, together with the author association of that
review.  Errors: `TypeError` when there is no review at all, `ValueError`
when the association string is unknown. -/
def review_comment_to_state (v : IssueView) :
    Except String (Option State × AuthorAssociation) :=
  match get_latest_review v true with
  | .error e => .error e
  | .ok Option.none => .error "TypeError: NoneType is not subscriptable"
  | .ok (some rev) =>
      match AuthorAssociation.of_string rev.authorAssociation with
      | Option.none => .error "ValueError: not a valid AuthorAssociation"
      | some ass => .ok (state_prefix_of rev.body, ass)

/-- `select_label(item)`: add the label of `item` and remove every other
label of its selection list, each mutation guarded by the cached label
list (here for `State` items, the only use in `on_review_comment`). -/
def select_label_ops (labels : List String) (item : State) : List GhOp :=
  add_label_ops labels item.value ++
    exclusivity_removes LabelCat.state item.value labels

/-- `on_review_comment()`, as executed in the five-argument event mode
(the only mode that dispatches a submitted-review event).  In that mode
the free variable `label` of the `info()` call in the accepted branch
resolves to the module-level global assigned from `argv`, so the branch
only logs it and proceeds: it calls `select_label(rev_state)` and then
`run(Action.labeled, label=rev_state.value)` — the second component of
the result is the `State` label of that re-run.  The `NameError` case is
verbatim from the source: the branch condition mentions the undefined
name `Author.Assoziation`, which is evaluated exactly when
`ass.is_valid()` is false (for any non-owner, non-valid association such
as `CONTRIBUTOR`). -/
def on_review_comment (v : IssueView) :
    Except String (List GhOp × Option State) :=
  match review_comment_to_state v with
  | .error e => .error e
  | .ok (rev_state, ass) =>
      if ass = AuthorAssociation.owner then
        if rev_state = some State.positive_review then
          .ok ([GhOp.approveOp], Option.none)
        else .ok ([], Option.none)
      else if ass.is_valid then
        match rev_state with
        | some State.needs_info =>
            .ok (select_label_ops v.labels State.needs_info,
              some State.needs_info)
        | some State.needs_review =>
            .ok (select_label_ops v.labels State.needs_review,
              some State.needs_review)
        | _ => .ok ([], Option.none)
      else .error "NameError: name Author is not defined"

/-- `warning_lifetime` of `clean_warnings`, in minutes. -/
def warning_lifetime : Int := 5

/-- The deletion condition of the loop body of `clean_warnings`: the
comment was authored by the bot, its body starts with the warning or the
hint prefix, and it is older than `warning_lifetime`. -/
def is_stale_warning (bot : String) (today : Int) (c : Comment) : Bool :=
  is_this_bot bot c.login ∧
    (py_startswith c.body warningPre ∨ py_startswith c.body hintPre) ∧
    warning_lifetime < today - c.createdAt

/-- The deletion loop of `clean_warnings`.  `deleteOk id` tells whether
the REST `DELETE` for comment `id` succeeds; a failing delete is caught
(`except CalledProcessError`) and the loop continues either way.  The
result records each attempted deletion with its outcome. -/
def clean_warnings (bot : String) (today : Int) (comments : List Comment)
    (deleteOk : Nat → Bool) : List (Nat × Bool) :=
  comments.foldl
    (fun acc c =>
      if is_stale_warning bot today c then acc ++ [(c.id, deleteOk c.id)]
      else acc) []

/-- The top-level steps of one process invocation. -/
inductive TopStep where
  | cleanWarningsStep
  | dispatchEventStep
  | runTestsStep
deriving DecidableEq

/-- The three invocation modes of the `__main__` block: one event
(5 arguments), the warning janitor (1 argument), the self-test sweep
(`--test`). -/
inductive RunMode where
  | singleEvent
  | janitor
  | testSweep
deriving DecidableEq

/-- The steps each invocation mode performs, in order.  The constructor
`GhLabelSynchronizer.__init__` runs `clean_warnings` in every mode;
`run` resp. `run_tests` follow in the event and test modes. -/
def main_steps : RunMode → List TopStep
  | .singleEvent => [TopStep.cleanWarningsStep, TopStep.dispatchEventStep]
  | .janitor => [TopStep.cleanWarningsStep]
  | .testSweep => [TopStep.cleanWarningsStep, TopStep.runTestsStep]

/-- Modelled from the spec for comparison: the latest proper review of a
single reviewer, using the same scan as `get_latest_review`. -/
def spec_latest_of_login (lg : String) (revs : List Review) : Option Review :=
  match revs.filter (fun r => r.login = lg) with
  | [] => Option.none
  | r :: rs => some (latest_from r rs)

/-- Modelled from the spec for comparison: whether some reviewer other
than the actor has `CHANGES_REQUESTED` as their latest proper-review
state. -/
def spec_any_other_latest_cr (actor : String) (revs : List Review) : Bool :=
  revs.any (fun r =>
    decide (r.login ≠ actor) &&
      (match spec_latest_of_login r.login revs with
       | some l => decide (l.state = "CHANGES_REQUESTED")
       | Option.none => false))

/-- Concrete input for C1: a PR whose author approved it themselves; the
commit list contains a second human author. -/
def wv1 : IssueView :=
  ⟨true, [], "alice", false, [⟨"alice", "OWNER", "APPROVED", 5, ""⟩],
   [⟨["alice", "bob"], 1⟩]⟩

/-- Concrete input for the C1 witness: a PR whose author is the actor,
with one proper review by another human and one commit by a third. -/
def wv1b : IssueView :=
  ⟨true, [], "alice", false, [⟨"bob", "NONE", "APPROVED", 5, ""⟩],
   [⟨["carol"], 1⟩]⟩

/-- Concrete input for C2: a PR whose latest review is a comment by the
given association whose body is the given text. -/
def rc (assoc body : String) : IssueView :=
  ⟨true, [], "alice", false, [⟨"bob", assoc, "COMMENTED", 5, body⟩],
   [⟨["alice"], 1⟩]⟩

/-- The two reviews of the C3 counterexample: distinct reviews sharing
the maximal timestamp. -/
def rv3a : Review := ⟨"xena", "NONE", "APPROVED", 7, ""⟩

def rv3b : Review := ⟨"yuri", "NONE", "APPROVED", 7, ""⟩

/-- Concrete input for C3: a PR with two reviews tied at the maximal
`submittedAt`. -/
def wv3 : IssueView := ⟨true, [], "alice", false, [rv3a, rv3b], [⟨["alice"], 1⟩]⟩

/-- Concrete input for the C3 witness: three reviews, the second and
third tied at the maximal timestamp. -/
def wv3w : IssueView :=
  ⟨true, [], "alice", false,
   [⟨"a", "NONE", "APPROVED", 3, ""⟩, ⟨"b", "NONE", "APPROVED", 9, ""⟩,
    ⟨"c", "NONE", "APPROVED", 9, ""⟩], [⟨["alice"], 1⟩]⟩

/-- The two reviews of the C4 counterexample: the same reviewer first
requests changes, then approves; both are proper. -/
def rv4a : Review := ⟨"bob", "NONE", "CHANGES_REQUESTED", 5, ""⟩

def rv4b : Review := ⟨"bob", "NONE", "APPROVED", 6, ""⟩

/-- Concrete input for C4. -/
def wv4 : IssueView := ⟨true, [], "alice", false, [rv4a, rv4b], [⟨["alice"], 1⟩]⟩

/-- Concrete input for C5: a PR carrying no labels at all (the priority
label whose removal triggered the event is already gone). -/
def wv5 : IssueView := ⟨true, [], "alice", false, [], []⟩

/-- Concrete input for C6: a PR with one proper and one improper review. -/
def wv6 : IssueView :=
  ⟨true, [], "alice", false,
   [⟨"bob", "NONE", "APPROVED", 5, "ok"⟩, ⟨"carl", "NONE", "COMMENTED", 9, ""⟩],
   [⟨["alice"], 3⟩]⟩

/-- Concrete input for the C7 witness: a PR whose latest proper review
requests changes. -/
def wv7 : IssueView :=
  ⟨true, [], "alice", false, [⟨"bob", "NONE", "CHANGES_REQUESTED", 5, ""⟩],
   [⟨["alice"], 1⟩]⟩

/-- Concrete input for the C8 witness: an issue carrying a priority, a
state and two resolution labels. -/
def wv8 : IssueView :=
  ⟨false, ["p: major /3", "s: needs info", "r: wontfix", "r: duplicate"],
   "alice", false, [], []⟩

/-- Concrete input for C9: a PR authored by the actor whose only proper
review was submitted by a login that merely extends the bot login. -/
def wv9 : IssueView :=
  ⟨true, [], "alice", false, [⟨"github-actions2", "NONE", "APPROVED", 5, ""⟩],
   [⟨["bob"], 1⟩]⟩

/-- Concrete comments for C10: a stale bot warning (age 10 minutes) and a
fresh one (age 2 minutes). -/
def c10old : Comment := ⟨1, "github-actions", "Label Sync Warning: stale", 0⟩

def c10new : Comment := ⟨2, "github-actions", "Label Sync Warning: fresh", 8⟩

theorem latest_from_cons (a x : Review) (xs : List Review) :
    latest_from a (x :: xs) =
      latest_from (if a.submittedAt < x.submittedAt then x else a) xs := rfl

theorem latest_from_mem (r : Review) (rs : List Review) :
    latest_from r rs ∈ r :: rs := by
  induction rs generalizing r with
  | nil => simp [latest_from]
  | cons x xs ih =>
    rw [latest_from_cons]
    split
    · rcases List.mem_cons.mp (ih x) with h | h
      · simp [h]
      · simp [List.mem_cons, h]
    · rcases List.mem_cons.mp (ih r) with h | h
      · simp [h]
      · simp [List.mem_cons, h]

theorem latest_from_head_of_le (r : Review) (rs : List Review)
    (h : ∀ s ∈ rs, s.submittedAt ≤ r.submittedAt) : latest_from r rs = r := by
  induction rs with
  | nil => rfl
  | cons x xs ih =>
    rw [latest_from_cons]
    have hx := h x (List.mem_cons_self x xs)
    rw [if_neg (by omega)]
    exact ih (fun s hs => h s (List.mem_cons_of_mem x hs))

theorem latest_from_first_max (a : Review) (l₁ : List Review) (r : Review)
    (l₂ : List Review) (ha : a.submittedAt < r.submittedAt)
    (h₁ : ∀ s ∈ l₁, s.submittedAt < r.submittedAt)
    (h₂ : ∀ s ∈ l₂, s.submittedAt ≤ r.submittedAt) :
    latest_from a (l₁ ++ r :: l₂) = r := by
  induction l₁ generalizing a with
  | nil =>
    rw [List.nil_append, latest_from_cons, if_pos ha]
    exact latest_from_head_of_le r l₂ h₂
  | cons b t ih =>
    rw [List.cons_append, latest_from_cons]
    split
    · exact ih b (h₁ b (List.mem_cons_self b t))
        (fun s hs => h₁ s (List.mem_cons_of_mem b hs))
    · exact ih a ha (fun s hs => h₁ s (List.mem_cons_of_mem b hs))

theorem mem_foldl_erase (rs : List String) :
    ∀ (labels : List String), labels.Nodup →
      ∀ x, x ∈ rs.foldl (fun acc r => acc.erase r) labels ↔
        x ∈ labels ∧ x ∉ rs := by
  induction rs with
  | nil => intro labels _ x; simp
  | cons r rs ih =>
    intro labels hnd x
    rw [List.foldl_cons, ih (labels.erase r) (hnd.erase r) x,
      hnd.mem_erase_iff]
    simp only [List.mem_cons, not_or]
    tauto

theorem foldl_apply_map_erase (xs : List String) :
    ∀ labels : List String,
      (xs.map GhOp.editRemove).foldl apply_op labels =
        xs.foldl (fun acc r => acc.erase r) labels := by
  induction xs with
  | nil => intro labels; rfl
  | cons x xs ih => intro labels; rw [List.map_cons, List.foldl_cons,
      List.foldl_cons]; exact ih (labels.erase x)

theorem mem_upd_authors (bot author : String) (acc : List String) (l x : String) :
    x ∈ upd_authors bot author acc l ↔
      x ∈ acc ∨ (x = l ∧ is_this_bot bot l = false ∧ l ≠ author) := by
  unfold upd_authors
  split_ifs with h1 h2
  · constructor
    · exact Or.inl
    · rintro (h | ⟨rfl, _⟩)
      · exact h
      · exact h1
  · simp only [List.mem_append, List.mem_singleton]
    tauto
  · constructor
    · exact Or.inl
    · rintro (h | ⟨rfl, hc⟩)
      · exact h
      · exact absurd hc h2

theorem mem_foldl_upd (bot author : String) (logins : List String) :
    ∀ acc x, x ∈ logins.foldl (upd_authors bot author) acc ↔
      x ∈ acc ∨ (x ∈ logins ∧ is_this_bot bot x = false ∧ x ≠ author) := by
  induction logins with
  | nil => intro acc x; simp
  | cons l ls ih =>
    intro acc x
    rw [List.foldl_cons, ih, mem_upd_authors]
    constructor
    · rintro ((h | ⟨rfl, hc⟩) | ⟨hm, hc⟩)
      · exact Or.inl h
      · exact Or.inr ⟨List.mem_cons_self x ls, hc⟩
      · exact Or.inr ⟨List.mem_cons_of_mem l hm, hc⟩
    · rintro (h | ⟨hm, hc⟩)
      · exact Or.inl (Or.inl h)
      · rcases List.mem_cons.mp hm with rfl | hm
        · exact Or.inl (Or.inr ⟨rfl, hc⟩)
        · exact Or.inr ⟨hm, hc⟩

theorem mem_other_commit_authors (bot author : String) (coms : List Commit)
    (x : String) :
    x ∈ other_commit_authors bot author coms ↔
      (∃ c ∈ coms, x ∈ c.authors) ∧ is_this_bot bot x = false ∧ x ≠ author := by
  suffices h : ∀ acc, x ∈ coms.foldl
      (fun acc com => com.authors.foldl (upd_authors bot author) acc) acc ↔
      x ∈ acc ∨ ((∃ c ∈ coms, x ∈ c.authors) ∧
        is_this_bot bot x = false ∧ x ≠ author) by
    have := h []
    simpa [other_commit_authors] using this
  induction coms with
  | nil => intro acc; simp
  | cons c cs ih =>
    intro acc
    rw [List.foldl_cons, ih, mem_foldl_upd]
    simp only [List.exists_mem_cons_iff]
    tauto

theorem le_foldl_max (cs : List Commit) :
    ∀ a : Nat, a ≤ cs.foldl (fun x cm => max x cm.committedDate) a := by
  induction cs with
  | nil => intro a; simp
  | cons c cs ih =>
    intro a
    exact le_trans (le_max_left a c.committedDate) (ih _)

theorem mem_le_foldl_max (cs : List Commit) :
    ∀ a, ∀ c ∈ cs, c.committedDate ≤
      cs.foldl (fun x cm => max x cm.committedDate) a := by
  induction cs with
  | nil => intro a c hc; simp at hc
  | cons d ds ih =>
    intro a c hc
    rcases List.mem_cons.mp hc with rfl | hc
    · exact le_trans (le_max_right a c.committedDate) (le_foldl_max ds _)
    · exact ih _ c hc

theorem foldl_max_attained (cs : List Commit) :
    ∀ a : Nat, cs.foldl (fun x cm => max x cm.committedDate) a = a ∨
      ∃ c ∈ cs, cs.foldl (fun x cm => max x cm.committedDate) a =
        c.committedDate := by
  induction cs with
  | nil => intro a; left; rfl
  | cons d ds ih =>
    intro a
    rw [List.foldl_cons]
    rcases ih (max a d.committedDate) with h | ⟨c, hc, h⟩
    · rcases Nat.le_total a d.committedDate with hle | hle
      · right
        exact ⟨d, List.mem_cons_self d ds, by rw [h, Nat.max_eq_right hle]⟩
      · left
        rw [h, Nat.max_eq_left hle]
    · right
      exact ⟨c, List.mem_cons_of_mem d hc, h⟩

theorem clean_warnings_eq (bot : String) (today : Int) (comments : List Comment)
    (deleteOk : Nat → Bool) :
    clean_warnings bot today comments deleteOk =
      (comments.filter (is_stale_warning bot today)).map
        (fun c => (c.id, deleteOk c.id)) := by
  suffices h : ∀ acc, comments.foldl
      (fun acc c =>
        if is_stale_warning bot today c then acc ++ [(c.id, deleteOk c.id)]
        else acc) acc =
      acc ++ (comments.filter (is_stale_warning bot today)).map
        (fun c => (c.id, deleteOk c.id)) by
    simpa [clean_warnings] using h []
  induction comments with
  | nil => intro acc; simp
  | cons c cs ih =>
    intro acc
    rw [List.foldl_cons]
    cases hc : is_stale_warning bot today c <;> simp [hc, ih]

/-- C2: the `commented` branch of the dispatcher lets an owner
self-approve via a `positive-review`-prefixed comment and lets a
collaborator / member select `needs-info` / `needs-review` via a comment
prefix (the label is selected — here the `editAdd` of `select_label` on
the empty label set — and the labeled event is re-run with that label,
the second component).  The contributor branch of the claim, however,
crashes: when `ass.is_valid()` is false the condition evaluates the
undefined name `Author.Assoziation` and the code raises `NameError`
instead of selecting the label and re-running. -/
theorem C2_on_review_comment_contributor_raises :
    on_review_comment (rc "COLLABORATOR" "s: needs review : please look") =
      .ok ([GhOp.editAdd "s: needs review"], some State.needs_review) ∧
    on_review_comment (rc "MEMBER" "s: needs info : more details") =
      .ok ([GhOp.editAdd "s: needs info"], some State.needs_info) ∧
    on_review_comment (rc "CONTRIBUTOR" "s: needs review : please look") =
      .error "NameError: name Author is not defined" ∧
    on_review_comment (rc "OWNER" "s: positive review : lgtm") =
      .ok ([GhOp.approveOp], Option.none) :=
  ⟨rfl, rfl, rfl, rfl⟩

/-- C9: `is_this_bot(login)` holds exactly when the bot login is a
string prefix of `login`; in particular every extension of the bot login
is treated as the bot itself, e.g. the only proper review of `wv9` (by
`github-actions2`) is dropped by the review filter of `actor_valid`, and
a warning comment posted by `github-actions-fake` is collected by
`clean_warnings` when the bot is `github-actions`. -/
theorem C9_is_this_bot_prefix :
    (∀ bot login : String, is_this_bot bot login = true ↔ bot.data <+: login.data) ∧
    (∀ bot t : String, is_this_bot bot (bot ++ t) = true) ∧
    is_this_bot "github-actions" "github-actions2" = true ∧
    actor_valid "github-actions" "alice" wv9 = .ok false ∧
    clean_warnings "github-actions" 10
      [⟨7, "github-actions-fake", "Label Sync Warning: x", 0⟩]
      (fun _ => true) = [(7, true)] := by
  refine ⟨?_, ?_, rfl, rfl, rfl⟩
  · intro bot login
    exact List.isPrefixOf_iff_prefix
  · intro bot t
    show py_startswith (bot ++ t) bot = true
    unfold py_startswith
    rw [List.isPrefixOf_iff_prefix]
    exact List.prefix_append bot.data t.data

/-- C10: every invocation mode runs the stale-warning cleanup first
(before dispatching any event); the cleanup attempts to delete exactly
the bot-authored comments whose body starts with the warning or hint
prefix and whose age exceeds 5 minutes; the set of attempted deletions
does not depend on whether the individual deletes succeed (a failed
delete is swallowed); concretely, a 10-minute-old bot warning is
attempted even when its delete fails, while a 2-minute-old one is kept. -/
theorem C10_clean_warnings_every_mode :
    (∀ mode : RunMode, (main_steps mode).head? = some TopStep.cleanWarningsStep) ∧
    (∀ (bot : String) (today : Int) (comments : List Comment) (d₁ d₂ : Nat → Bool),
      (clean_warnings bot today comments d₁).map Prod.fst =
        (clean_warnings bot today comments d₂).map Prod.fst) ∧
    (∀ (bot : String) (today : Int) (comments : List Comment) (dOk : Nat → Bool)
      (i : Nat),
      i ∈ (clean_warnings bot today comments dOk).map Prod.fst ↔
        ∃ c ∈ comments, c.id = i ∧ is_this_bot bot c.login = true ∧
          (py_startswith c.body warningPre = true ∨
            py_startswith c.body hintPre = true) ∧
          5 < today - c.createdAt) ∧
    clean_warnings "github-actions" 10 [c10old, c10new] (fun _ => false) =
      [(1, false)] := by
  refine ⟨?_, ?_, ?_, rfl⟩
  · intro mode; cases mode <;> rfl
  · intro bot today comments d₁ d₂
    rw [clean_warnings_eq, clean_warnings_eq]
    simp [List.map_map, Function.comp]
  · intro bot today comments dOk i
    rw [clean_warnings_eq]
    simp only [List.map_map, List.mem_map, Function.comp, List.mem_filter,
      is_stale_warning, warning_lifetime, Bool.and_eq_true, Bool.or_eq_true,
      decide_eq_true_eq]
    constructor
    · rintro ⟨c, ⟨hc, hb, hp, ht⟩, rfl⟩
      exact ⟨c, hc, rfl, hb, hp, ht⟩
    · rintro ⟨c, hc, rfl, hb, hp, ht⟩
      exact ⟨c, ⟨hc, hb, hp, ht⟩, rfl⟩

/-- C3 counterexample: two qualifying reviews share the maximal
timestamp; the claim says the last one in insertion order is returned,
but `get_latest_review` keeps the first one (`rv3a`), because the scan
only replaces its candidate on a strictly larger timestamp. -/
theorem C3_counterexample :
    get_reviews wv3 true = .ok (some [rv3a, rv3b]) ∧
    rv3a.submittedAt = rv3b.submittedAt ∧ rv3a ≠ rv3b ∧
    get_latest_review wv3 true = .ok (some rv3a) :=
  ⟨rfl, rfl, by decide, rfl⟩

/-- C3 amended: for a non-empty list of qualifying reviews,
`get_latest_review` returns a review with maximal `submittedAt`, and
among reviews sharing the maximal timestamp the FIRST one in insertion
order wins: the element `r` is returned iff every earlier review is
strictly older and every later review is not newer. -/
theorem C3_latest_review_first_max (v : IssueView) (complete : Bool)
    (l₁ l₂ : List Review) (r : Review)
    (hr : get_reviews v complete = .ok (some (l₁ ++ r :: l₂)))
    (h₁ : ∀ s ∈ l₁, s.submittedAt < r.submittedAt)
    (h₂ : ∀ s ∈ l₂, s.submittedAt ≤ r.submittedAt) :
    get_latest_review v complete = .ok (some r) ∧
    ∀ s ∈ l₁ ++ r :: l₂, s.submittedAt ≤ r.submittedAt := by
  constructor
  · cases l₁ with
    | nil =>
      simp only [get_latest_review, hr, List.nil_append]
      rw [latest_from_head_of_le r l₂ h₂]
    | cons a t =>
      simp only [get_latest_review, hr, List.cons_append]
      rw [latest_from_first_max a t r l₂ (h₁ a (List.mem_cons_self a t))
        (fun s hs => h₁ s (List.mem_cons_of_mem a hs)) h₂]
  · intro s hs
    rcases List.mem_append.mp hs with h | h
    · exact le_of_lt (h₁ s h)
    · rcases List.mem_cons.mp h with rfl | h
      · exact le_refl _
      · exact h₂ s h

/-- C3 witness: on `wv3w` the amended theorem returns the second review,
the first of the two tied at the maximal timestamp 9. -/
theorem C3_witness :
    get_reviews wv3w true = .ok
      (some ([⟨"a", "NONE", "APPROVED", 3, ""⟩] ++
        (⟨"b", "NONE", "APPROVED", 9, ""⟩ : Review) ::
          [⟨"c", "NONE", "APPROVED", 9, ""⟩])) ∧
    get_latest_review wv3w true =
      .ok (some ⟨"b", "NONE", "APPROVED", 9, ""⟩) := by
  have h := C3_latest_review_first_max wv3w true
    [⟨"a", "NONE", "APPROVED", 3, ""⟩] [⟨"c", "NONE", "APPROVED", 9, ""⟩]
    ⟨"b", "NONE", "APPROVED", 9, ""⟩ rfl (by decide) (by decide)
  exact ⟨rfl, h.1⟩

/-- C4 counterexample: reviewer `bob` first requested changes, then
approved; both reviews are proper.  No reviewer other than the actor has
`CHANGES_REQUESTED` as their latest proper state, so the claim says
`approve_allowed` equals `actor_valid` (`= ok true` here), but the code
scans ALL proper reviews and returns `ok false`. -/
theorem C4_counterexample :
    get_reviews wv4 false = .ok (some [rv4a, rv4b]) ∧
    spec_any_other_latest_cr "carol" [rv4a, rv4b] = false ∧
    approve_allowed "github-actions" "carol" wv4 = .ok false ∧
    actor_valid "github-actions" "carol" wv4 = .ok true :=
  ⟨rfl, rfl, rfl, rfl⟩

/-- C4 amended: `approve_allowed` returns false as soon as ANY proper
review by someone other than the actor (not only a latest one) has state
`CHANGES_REQUESTED`, and otherwise returns exactly `actor_valid`; in
particular it does return false whenever some other reviewer's latest
proper state is `CHANGES_REQUESTED`. -/
theorem C4_approve_allowed (bot actor : String) (v : IssueView)
    (revs : List Review) (hr : get_reviews v false = .ok (some revs)) :
    approve_allowed bot actor v =
      (if (revs.filter (fun rev => rev.login ≠ actor)).any
          (fun rev => rev.state = "CHANGES_REQUESTED")
        then Except.ok false else actor_valid bot actor v) ∧
    (∀ (lg : String) (r0 : Review), lg ≠ actor →
      spec_latest_of_login lg revs = some r0 →
      r0.state = "CHANGES_REQUESTED" →
      approve_allowed bot actor v = .ok false) := by
  have h1 : approve_allowed bot actor v =
      (if (revs.filter (fun rev => rev.login ≠ actor)).any
          (fun rev => rev.state = "CHANGES_REQUESTED")
        then Except.ok false else actor_valid bot actor v) := by
    simp only [approve_allowed, hr]
  refine ⟨h1, ?_⟩
  intro lg r0 hlg hlat hst
  have hr0 : r0 ∈ revs.filter (fun rev => rev.login = lg) := by
    unfold spec_latest_of_login at hlat
    cases hf : revs.filter (fun rev => decide (rev.login = lg)) with
    | nil => rw [hf] at hlat; cases hlat
    | cons a as =>
      rw [hf] at hlat
      injection hlat with h
      exact h ▸ latest_from_mem a as
  have hmem := List.mem_filter.mp hr0
  have hlogin : r0.login = lg := by simpa using hmem.2
  have hany : (revs.filter (fun rev => rev.login ≠ actor)).any
      (fun rev => rev.state = "CHANGES_REQUESTED") = true := by
    apply List.any_eq_true.mpr
    refine ⟨r0, List.mem_filter.mpr ⟨hmem.1, ?_⟩, ?_⟩
    · simp [hlogin, hlg]
    · simp [hst]
  rw [h1, if_pos hany]

/-- C4 witness: on `wv4` with actor `dave`, the reviews of `bob` stay in
scope, one of them requests changes, and the amended characterization
evaluates `approve_allowed` to false. -/
theorem C4_witness :
    get_reviews wv4 false = .ok (some [rv4a, rv4b]) ∧
    approve_allowed "github-actions" "dave" wv4 = .ok false := by
  have h := C4_approve_allowed "github-actions" "dave" wv4 [rv4a, rv4b] rfl
  refine ⟨rfl, ?_⟩
  rw [h.1]
  rfl

/-- C5 counterexample: on a PR that carries no other priority label, the
standalone removal of `p: major /3` is rejected: the dispatcher posts a
hint comment but the final label set is still empty — the removed label
is NOT restored, contradicting the claim that a rejection reverts the
disallowed mutation. -/
theorem C5_counterexample :
    (∃ t, on_label_removal wv5 "p: major /3" = [GhOp.addComment t]) ∧
    (on_label_removal wv5 "p: major /3").foldl apply_op wv5.labels = [] :=
  ⟨⟨_, rfl⟩, rfl⟩

/-- C5 amended: a rejected label ADDITION posts a warning comment and
reverts the mutation (the just-added label is removed from the final
label set); a rejected standalone REMOVAL only posts a hint comment —
`on_label_removal` emits nothing but comments, so the label set is left
unchanged and the removed label is not restored. -/
theorem C5_reject_semantics :
    (∀ (isPR : Bool) (label : String) (labels : List String),
      label ∈ labels → labels.Nodup →
      reject_label_addition isPR label labels =
        [GhOp.addComment (reject_addition_text isPR label),
          GhOp.editRemove label] ∧
      label ∉ (reject_label_addition isPR label labels).foldl apply_op labels) ∧
    (∀ (v : IssueView) (label : String),
      (on_label_removal v label).foldl apply_op v.labels = v.labels ∧
      ∀ op ∈ on_label_removal v label, ∃ t, op = GhOp.addComment t) := by
  constructor
  · intro isPR label labels hmem hnd
    have hops : reject_label_addition isPR label labels =
        [GhOp.addComment (reject_addition_text isPR label),
          GhOp.editRemove label] := by
      unfold reject_label_addition remove_label_ops
      rw [if_pos hmem]
    refine ⟨hops, ?_⟩
    rw [hops]
    show label ∉ (labels.erase label)
    intro hcon
    exact (hnd.mem_erase_iff.mp hcon).1 rfl
  · intro v label
    have hsing : ∀ cat : LabelCat, (reject_label_removal cat).foldl apply_op
          v.labels = v.labels ∧
        ∀ op ∈ reject_label_removal cat, ∃ t, op = GhOp.addComment t := by
      intro cat
      refine ⟨rfl, ?_⟩
      intro op hop
      simp only [reject_label_removal, List.mem_singleton] at hop
      exact ⟨_, hop⟩
    have hnil : ([] : List GhOp).foldl apply_op v.labels = v.labels ∧
        ∀ op ∈ ([] : List GhOp), ∃ t, op = GhOp.addComment t :=
      ⟨rfl, by intro op hop; cases hop⟩
    cases hsl : selection_list label with
    | none => simp only [on_label_removal, hsl]; exact hnil
    | some cat =>
      simp only [on_label_removal, hsl]
      by_cases hp : 0 < (active_partners cat label v.labels).length
      · rw [if_pos hp]
        exact hnil
      · rw [if_neg hp]
        cases cat with
        | state =>
          by_cases hpr : v.isPR = true
          · rw [if_pos hpr]
            by_cases hni : label ≠ State.needs_info.value
            · rw [if_pos hni]
              exact hsing LabelCat.state
            · rw [if_neg hni]
              exact hnil
          · rw [if_neg hpr]
            exact hnil
        | priority => exact hsing LabelCat.priority
        | resolution => exact hnil

/-- C5 witness: the amended theorem applied to the addition of
`s: needs work` on a singleton label set, and to the standalone removal
event of `wv5`. -/
theorem C5_witness :
    ("s: needs work" ∈ ["s: needs work"]) ∧
    ("s: needs work" ∉
      (reject_label_addition true "s: needs work" ["s: needs work"]).foldl
        apply_op ["s: needs work"]) ∧
    (on_label_removal wv5 "p: major /3").foldl apply_op wv5.labels =
      wv5.labels := by
  refine ⟨by decide, ?_, ?_⟩
  · exact (C5_reject_semantics.1 true "s: needs work" ["s: needs work"]
      (by decide) (by decide)).2
  · exact (C5_reject_semantics.2 wv5 "p: major /3").1

/-- C7: `needs_review_valid` equals (not draft) AND NOT
`needs_work_valid` AND NOT `positive_review_valid`; `needs_work_valid`
and `positive_review_valid` never hold together (they test the same
latest proper review for different states), so at most one of the three
validity predicates holds at a time, and `needs_review_valid` is false
whenever one of the other two is true. -/
theorem C7_needs_review_gating (v : IssueView) (nw pv : Bool)
    (hnw : needs_work_valid v = .ok nw)
    (hpv : positive_review_valid v = .ok pv) :
    needs_review_valid v = .ok (!is_draft v && !nw && !pv) ∧
    (nw && pv) = false ∧
    ((nw = true ∨ pv = true) → needs_review_valid v = .ok false) := by
  have hex : (nw && pv) = false := by
    cases hg : get_latest_review v false with
    | error e =>
      simp only [needs_work_valid, check_review_decision, hg] at hnw
      cases hnw
    | ok o =>
      cases o with
      | none =>
        simp only [needs_work_valid, positive_review_valid,
          check_review_decision, hg] at hnw hpv
        injection hnw with h1
        injection hpv with h2
        rw [← h1, ← h2]
        rfl
      | some rev =>
        simp only [needs_work_valid, positive_review_valid,
          check_review_decision, hg] at hnw hpv
        injection hnw with h1
        injection hpv with h2
        rw [← h1, ← h2]
        by_cases hcr : rev.state = "CHANGES_REQUESTED"
        · have hap : rev.state ≠ "APPROVED" := by rw [hcr]; decide
          simp [hap]
        · simp [hcr]
  have heq : needs_review_valid v = .ok (!is_draft v && !nw && !pv) := by
    unfold needs_review_valid
    by_cases hd : is_draft v = true
    · rw [if_pos hd, hd]
      rfl
    · have hd' : is_draft v = false := by
        cases h : is_draft v
        · rfl
        · exact absurd h hd
      rw [if_neg hd, hd']
      simp only [hnw]
      cases nw with
      | true => rfl
      | false =>
        simp only [hpv]
        cases pv <;> rfl
  refine ⟨heq, hex, ?_⟩
  rintro (h | h) <;> rw [heq, h] <;> simp

/-- C7 witness: on `wv7` the latest proper review requests changes, so
`needs_work_valid` holds and `needs_review_valid` is false. -/
theorem C7_witness :
    needs_work_valid wv7 = .ok true ∧ positive_review_valid wv7 = .ok false ∧
    needs_review_valid wv7 = .ok false := by
  have h := C7_needs_review_gating wv7 true false rfl rfl
  exact ⟨rfl, rfl, h.2.2 (Or.inl rfl)⟩

/-- C6: on a PR, `get_reviews` with `complete = false` returns exactly
the reviews submitted strictly after the most recent commit timestamp
whose state is not `COMMENTED` (and the empty list when no such review
exists); the hypothesis pins `d` as the value of `max_commit_date`, and
the first two conjuncts prove it is the maximal commit timestamp. -/
theorem C6_get_reviews_proper (v : IssueView) (d : Nat)
    (hpr : v.isPR = true) (hd : max_commit_date v.commits = some d) :
    (∀ c ∈ v.commits, c.committedDate ≤ d) ∧
    (∃ c ∈ v.commits, c.committedDate = d) ∧
    ∃ revs : List Review, get_reviews v false = .ok (some revs) ∧
      (∀ r : Review, r ∈ revs ↔
        (r ∈ v.reviews ∧ d < r.submittedAt ∧ r.state ≠ "COMMENTED")) ∧
      ((∀ r ∈ v.reviews, d < r.submittedAt → r.state = "COMMENTED") →
        revs = []) := by
  obtain ⟨c0, cs, hc⟩ : ∃ c0 cs, v.commits = c0 :: cs := by
    cases hcm : v.commits with
    | nil =>
      rw [hcm] at hd
      cases hd
    | cons a l => exact ⟨a, l, rfl⟩
  have hdval : d = cs.foldl (fun x cm => max x cm.committedDate)
      c0.committedDate := by
    rw [hc] at hd
    simp only [max_commit_date] at hd
    injection hd with h
    exact h.symm
  refine ⟨?_, ?_, ?_⟩
  · intro c hcmem
    rw [hc] at hcmem
    rcases List.mem_cons.mp hcmem with rfl | hcmem
    · rw [hdval]
      exact le_foldl_max cs c.committedDate
    · rw [hdval]
      exact mem_le_foldl_max cs c0.committedDate c hcmem
  · rcases foldl_max_attained cs c0.committedDate with h | ⟨c, hcmem, h⟩
    · exact ⟨c0, by rw [hc]; exact List.mem_cons_self c0 cs,
        by rw [hdval, h]⟩
    · exact ⟨c, by rw [hc]; exact List.mem_cons_of_mem c0 hcmem,
        by rw [hdval, h]⟩
  · cases hre : v.reviews.isEmpty with
    | true =>
      have hnil : v.reviews = [] := by
        cases hrv : v.reviews
        · rfl
        · rw [hrv] at hre; cases hre
      refine ⟨[], ?_, ?_, fun _ => rfl⟩
      · simp [get_reviews, hpr, hre]
        exact hnil
      · intro r
        simp [hnil]
    | false =>
      refine ⟨(v.reviews.filter (fun rev => d < rev.submittedAt)).filter
          (fun rev => rev.state ≠ "COMMENTED"), ?_, ?_, ?_⟩
      · simp [get_reviews, hpr, hre, hd]
      · intro r
        simp only [List.mem_filter, decide_eq_true_eq]
        tauto
      · intro hall
        apply List.eq_nil_iff_forall_not_mem.mpr
        intro r hrmem
        simp only [List.mem_filter, decide_eq_true_eq] at hrmem
        exact hrmem.2 (hall r hrmem.1.1 hrmem.1.2)

/-- C6 witness: on `wv6` (latest commit at 3) the proper review list
contains the approval at 5 and drops the comment at 9. -/
theorem C6_witness :
    wv6.isPR = true ∧ max_commit_date wv6.commits = some 3 ∧
    ∃ revs, get_reviews wv6 false = .ok (some revs) ∧
      (⟨"bob", "NONE", "APPROVED", 5, "ok"⟩ : Review) ∈ revs ∧
      (⟨"carl", "NONE", "COMMENTED", 9, ""⟩ : Review) ∉ revs := by
  refine ⟨rfl, rfl, ?_⟩
  obtain ⟨hub, hat, revs, hrevs, hmem, hempty⟩ :=
    C6_get_reviews_proper wv6 3 rfl rfl
  refine ⟨revs, hrevs, ?_, ?_⟩
  · exact (hmem _).mpr ⟨by decide, by decide, by decide⟩
  · intro hcon
    exact ((hmem _).mp hcon).2.2 rfl

/-- C1 counterexample: on `wv1` the actor is the author `alice`, the
only proper review was submitted by `alice` herself (no non-bot,
non-author reviewer exists), yet `actor_valid` returns true because the
review filter only excludes the bot, not the author; the commit by `bob`
satisfies the commit-side condition. -/
theorem C1_counterexample :
    wv1.author = "alice" ∧
    get_reviews wv1 false =
      .ok (some [⟨"alice", "OWNER", "APPROVED", 5, ""⟩]) ∧
    (∀ r ∈ [(⟨"alice", "OWNER", "APPROVED", 5, ""⟩ : Review)],
      r.login = wv1.author) ∧
    actor_valid "github-actions" "alice" wv1 = .ok true :=
  ⟨rfl, rfl, by decide, rfl⟩

/-- C1 amended: when the actor is the PR author, `actor_valid` returns
true iff at least one NON-BOT login (possibly the author) has submitted
a proper review AND at least one non-bot, non-author login appears among
the commit authors.  (The claim additionally required the reviewer to
differ from the author; the code does not.)  The flip scenario of the
claim survives, since it is the commit condition that blocks it. -/
theorem C1_actor_valid_coauthor (bot actor : String) (v : IssueView)
    (revs : List Review) (ha : v.author = actor) (hpr : v.isPR = true)
    (hcne : v.commits ≠ []) (hr : get_reviews v false = .ok (some revs)) :
    actor_valid bot actor v = .ok
      (!(revs.filter (fun rev => is_this_bot bot rev.login = false)).isEmpty &&
        !(other_commit_authors bot v.author v.commits).isEmpty) ∧
    ((!(revs.filter (fun rev => is_this_bot bot rev.login = false)).isEmpty &&
        !(other_commit_authors bot v.author v.commits).isEmpty) = true ↔
      ((∃ rev ∈ revs, is_this_bot bot rev.login = false) ∧
        ∃ c ∈ v.commits, ∃ lg ∈ c.authors,
          is_this_bot bot lg = false ∧ lg ≠ v.author)) := by
  have hgc : get_commits v = .ok (some v.commits) := by
    obtain ⟨c0, cs, hc⟩ : ∃ c0 cs, v.commits = c0 :: cs := by
      cases hcm : v.commits with
      | nil => exact absurd hcm hcne
      | cons a l => exact ⟨a, l, rfl⟩
    have hdd : ∃ dd, max_commit_date v.commits = some dd := by
      rw [hc]
      exact ⟨_, rfl⟩
    obtain ⟨dd, hdd⟩ := hdd
    simp [get_commits, hpr, hdd]
  constructor
  · have hne : ¬(v.author ≠ actor) := by simp [ha]
    simp only [actor_valid, if_neg hne, hr]
    cases hfe : (revs.filter (fun rev => is_this_bot bot rev.login = false)).isEmpty with
    | true => simp [hfe]
    | false =>
      simp only [hfe, Bool.false_eq_true, if_false, hgc]
      cases hae : (other_commit_authors bot v.author v.commits).isEmpty with
      | true => simp [hae]
      | false => simp [hae]
  · rw [Bool.and_eq_true]
    constructor
    · rintro ⟨h1, h2⟩
      rw [Bool.not_eq_true', List.isEmpty_eq_false] at h1 h2
      constructor
      · obtain ⟨rev, hrev⟩ := List.exists_mem_of_ne_nil _ h1
        have := List.mem_filter.mp hrev
        exact ⟨rev, this.1, by simpa using this.2⟩
      · obtain ⟨lg, hlg⟩ := List.exists_mem_of_ne_nil _ h2
        obtain ⟨⟨c, hcmem, hlgmem⟩, hbot, hauth⟩ :=
          (mem_other_commit_authors bot v.author v.commits lg).mp hlg
        exact ⟨c, hcmem, lg, hlgmem, hbot, hauth⟩
    · rintro ⟨⟨rev, hrev, hbot⟩, c, hcmem, lg, hlgmem, hlbot, hlauth⟩
      rw [Bool.not_eq_true', List.isEmpty_eq_false,
        Bool.not_eq_true', List.isEmpty_eq_false]
      constructor
      · exact List.ne_nil_of_mem (List.mem_filter.mpr ⟨hrev, by simpa using hbot⟩)
      · exact List.ne_nil_of_mem
          ((mem_other_commit_authors bot v.author v.commits lg).mpr
            ⟨⟨c, hcmem, hlgmem⟩, hlbot, hlauth⟩)

/-- C1 witness: on `wv1b` the author `alice` acts on her own PR; `bob`
reviewed it and `carol` committed to it, so `actor_valid` returns
true. -/
theorem C1_witness :
    wv1b.author = "alice" ∧ wv1b.commits ≠ [] ∧
    actor_valid "github-actions" "alice" wv1b = .ok true := by
  have h := C1_actor_valid_coauthor "github-actions" "alice" wv1b
    [⟨"bob", "NONE", "APPROVED", 5, ""⟩] rfl rfl (by decide) rfl
  refine ⟨rfl, by decide, ?_⟩
  rw [h.1]
  rfl

/-- C8: a labeled event for a Resolution label `L` present on the
issue / PR removes every priority label and every other resolution label
from the label set, keeps `L` attached and leaves every state label
unchanged. -/
theorem C8_resolution_clears_priority (bot actor : String) (v : IssueView)
    (L : String) (hL : L ∈ sel_values LabelCat.resolution)
    (hmem : L ∈ v.labels) (hnd : v.labels.Nodup) :
    ∃ ops, on_label_add bot actor v L = .ok ops ∧
      (∀ p ∈ sel_values LabelCat.priority, p ∉ ops.foldl apply_op v.labels) ∧
      (∀ r ∈ sel_values LabelCat.resolution, r ≠ L →
        r ∉ ops.foldl apply_op v.labels) ∧
      L ∈ ops.foldl apply_op v.labels ∧
      (∀ s ∈ sel_values LabelCat.state,
        (s ∈ ops.foldl apply_op v.labels ↔ s ∈ v.labels)) := by
  have hLs : L = "r: duplicate" ∨ L = "r: invalid" ∨ L = "r: wontfix" ∨
      L = "r: worksforme" := by simpa [sel_values] using hL
  have hsel : selection_list L = some LabelCat.resolution := by
    rcases hLs with rfl | rfl | rfl | rfl <;> rfl
  have hLnp : L ∉ sel_values LabelCat.priority := by
    rcases hLs with rfl | rfl | rfl | rfl <;> decide
  have hdisj : ∀ u ∈ sel_values LabelCat.state,
      u ∉ sel_values LabelCat.priority ∧ u ∉ sel_values LabelCat.resolution := by
    decide
  have hops : on_label_add bot actor v L = .ok
      (remove_all_ops (sel_values LabelCat.priority) v.labels ++
        exclusivity_removes LabelCat.resolution L v.labels) := by
    simp only [on_label_add, hsel]
    rw [if_pos hmem]
  have hsplit : remove_all_ops (sel_values LabelCat.priority) v.labels ++
      exclusivity_removes LabelCat.resolution L v.labels =
      ((sel_values LabelCat.priority).filter (fun l => l ∈ v.labels) ++
        ((sel_values LabelCat.resolution).filter (fun l => l ≠ L)).filter
          (fun l => l ∈ v.labels)).map GhOp.editRemove := by
    simp [remove_all_ops, exclusivity_removes]
  have hfold : ∀ x : String,
      x ∈ (remove_all_ops (sel_values LabelCat.priority) v.labels ++
        exclusivity_removes LabelCat.resolution L v.labels).foldl apply_op
          v.labels ↔
      x ∈ v.labels ∧
        ¬x ∈ ((sel_values LabelCat.priority).filter (fun l => l ∈ v.labels) ++
          ((sel_values LabelCat.resolution).filter (fun l => l ≠ L)).filter
            (fun l => l ∈ v.labels)) := by
    intro x
    rw [hsplit, foldl_apply_map_erase, mem_foldl_erase _ v.labels hnd x]
  refine ⟨_, hops, ?_, ?_, ?_, ?_⟩
  · intro p hp hcon
    rw [hfold p] at hcon
    exact hcon.2 (List.mem_append_left _
      (List.mem_filter.mpr ⟨hp, by simpa using hcon.1⟩))
  · intro r hrv hrL hcon
    rw [hfold r] at hcon
    exact hcon.2 (List.mem_append_right _
      (List.mem_filter.mpr ⟨List.mem_filter.mpr ⟨hrv, by simpa using hrL⟩,
        by simpa using hcon.1⟩))
  · rw [hfold L]
    refine ⟨hmem, ?_⟩
    intro hcon
    rcases List.mem_append.mp hcon with h | h
    · exact hLnp (List.mem_filter.mp h).1
    · have := (List.mem_filter.mp (List.mem_filter.mp h).1).2
      simp at this
  · intro s hs
    rw [hfold s]
    obtain ⟨hsp, hsr⟩ := hdisj s hs
    constructor
    · exact fun h => h.1
    · intro hsl
      refine ⟨hsl, ?_⟩
      intro hcon
      rcases List.mem_append.mp hcon with h | h
      · exact hsp (List.mem_filter.mp h).1
      · exact hsr (List.mem_filter.mp (List.mem_filter.mp h).1).1

/-- C8 witness: on the issue `wv8` (priority `p: major /3`, state
`s: needs info`, resolutions `r: wontfix` and `r: duplicate`), adding
`r: wontfix` removes the priority label and the other resolution label,
keeps `r: wontfix` and keeps the state label. -/
theorem C8_witness :
    "r: wontfix" ∈ wv8.labels ∧ wv8.labels.Nodup ∧
    ∃ ops, on_label_add "github-actions" "alice" wv8 "r: wontfix" = .ok ops ∧
      "p: major /3" ∉ ops.foldl apply_op wv8.labels ∧
      "r: duplicate" ∉ ops.foldl apply_op wv8.labels ∧
      "r: wontfix" ∈ ops.foldl apply_op wv8.labels ∧
      "s: needs info" ∈ ops.foldl apply_op wv8.labels := by
  refine ⟨by decide, by decide, ?_⟩
  obtain ⟨ops, hops, hp, hr, hL, hs⟩ :=
    C8_resolution_clears_priority "github-actions" "alice" wv8 "r: wontfix"
      (by decide) (by decide) (by decide)
  exact ⟨ops, hops, hp _ (by decide), hr _ (by decide) (by decide), hL,
    (hs _ (by decide)).mpr (by decide)⟩

end SyncLabels
